import Mathlib

/-!
Verification of the FUZOJ judging core against its specification.

The definitions below are a shallow embedding of the C++ sources under
`src/Judge/src/`.  The authoritative revision of the orchestrator is
`judger.cc` together with `judger.h` (the capitalised `Judger.cc` defines a
member `Judger::Converge` that is not declared by any header it can include
and reads members that do not exist in the current `Judger` class, so it is a
stale revision that cannot build); the runner and grader strategies are from
`src/Judge/src/Judger/CppJudger.cc`, the sandbox from `src/Judge/src/Sandbox.cc`
and `src/Judge/src/sandbox.h`, the cgroup readers from `src/Judge/src/CGroup.cc`,
and the enumerations from `src/Judge/src/Types.h`.

C++ `int`/`long long` fields are modelled as `Int`, `size_t` fields as `Nat`,
raw `waitpid` statuses as `Nat` together with the glibc wait-status macros.
-/

namespace FUZOJ

/-- Verdict tags, from `enum class JudgeState` in `src/Judge/src/Types.h`. -/
inductive JudgeState where
  | kAC | kWA | kRE | kCE | kTLE | kMLE | kMUL | kUKN | kFPE
deriving DecidableEq, Repr

/-- Language tags, from `enum class Language` in `src/Judge/src/Types.h`. -/
inductive Language where
  | kCpp | kPython | kJava | kGolang | kJavaScript | kCSharp | kSQL | kInternal
deriving DecidableEq, Repr

/-- Per-test-case result record, from `struct TestCaseResult` in
`src/Judge/src/solution.h`.  The defaults model C++ value-initialisation
(`std::vector<TestCaseResult> rls(n)` zero-initialises every member, and the
zero value of the enum is `kAC`). -/
structure TestCaseResult where
  state : JudgeState := .kAC
  id : Int := 0
  score : Int := 0
  info : String := ""
  time_ms : Int := 0
  mem_byte : Nat := 0
deriving DecidableEq, Repr

/-- Overall result record, from `class Result` in `src/Judge/src/solution.h`
(the `problem_id_` string is carried verbatim and never touched by the
operations verified here, so it is omitted). -/
structure Result where
  testcase_rel : List TestCaseResult := []
  state : JudgeState := .kAC
  id : String := ""
  score : Int := 0
  info : String := ""
deriving DecidableEq, Repr

/-- The outcome-bearing fields of `struct SandboxProgram` in
`src/Judge/src/sandbox.h`, with their in-class initialisers.  `state` holds the
raw `waitpid` status. -/
structure SandboxProgram where
  time_limit : Option Int := none
  memory_limit : Option Nat := none
  state : Nat := 0
  time_ms : Int := 0
  mem_byte : Nat := 0
  normal_exit : Bool := false
  cgroup_oom : Bool := false
deriving DecidableEq, Repr

/-! glibc wait-status macros, as used by `Sandbox::Excute` and
`CppRunner::GetState`. -/

def WTERMSIG (s : Nat) : Nat := s &&& 0x7f

def WIFEXITED (s : Nat) : Bool := WTERMSIG s == 0

def WEXITSTATUS (s : Nat) : Nat := (s >>> 8) &&& 0xff

def WIFSIGNALED (s : Nat) : Bool := WTERMSIG s != 0 && WTERMSIG s != 0x7f

def SIGFPE : Nat := 8

def SIGKILL : Nat := 9

def SIGSEGV : Nat := 11

/-- Whether the node ran over its time limit:
`sp->time_limit_ && sp->time_ms_ > *sp->time_limit_`. -/
def timeExceeded (sp : SandboxProgram) : Bool :=
  match sp.time_limit with
  | some tl => sp.time_ms > tl
  | none => false

/-- Whether the node ran over its memory limit:
`sp->memory_limit_ && sp->mem_byte_ > *sp->memory_limit_`. -/
def memExceeded (sp : SandboxProgram) : Bool :=
  match sp.memory_limit with
  | some ml => sp.mem_byte > ml
  | none => false

/-- The two trailing limit checks of `CppRunner::GetState`
(`src/Judge/src/Judger/CppJudger.cc`, lines 166-175); each check returns as
soon as it fires. -/
def limitChecks (sp : SandboxProgram) (r : TestCaseResult) : TestCaseResult :=
  if timeExceeded sp then { r with state := .kTLE }
  else if memExceeded sp then { r with state := .kMLE }
  else r

/-- `CppRunner::GetState` (`src/Judge/src/Judger/CppJudger.cc`, lines 127-176):
interpret one executed run node into a per-case result.  Branches that `return`
in the source bypass the trailing limit checks; the `SIGKILL`-without-OOM
branch falls through to them. -/
def CppRunner.GetState (sp : SandboxProgram) : TestCaseResult :=
  let r : TestCaseResult :=
    { state := .kAC, score := 0, time_ms := sp.time_ms, mem_byte := sp.mem_byte }
  if !sp.normal_exit then
    if WIFEXITED sp.state then
      if WEXITSTATUS sp.state != 0 then
        { r with state := .kRE, info := "return value is not zero." }
      else limitChecks sp r
    else if WIFSIGNALED sp.state then
      if WTERMSIG sp.state == SIGSEGV then
        { r with state := .kRE, info := "segment fault." }
      else if WTERMSIG sp.state == SIGFPE then
        { r with state := .kFPE, info := "Float error." }
      else if WTERMSIG sp.state == SIGKILL then
        if sp.cgroup_oom then { r with state := .kMLE, info := "MLE" }
        else limitChecks sp { r with state := .kRE }
      else limitChecks sp r
    else limitChecks sp r
  else limitChecks sp r

/-- `CppRunner::GetResult` (`src/Judge/src/Judger/CppJudger.cc`, lines 87-125):
if the compile node did not exit normally, every case becomes `kCE` with score
0 and case 0 carries the compile log; otherwise each run node is interpreted by
`GetState`.  (With zero test cases the compile-failure branch of the source
indexes `rls[0]` out of bounds, which is undefined; the embedding returns `[]`
there and all theorems assume at least one test case.) -/
def CppRunner.GetResult (compile_normal_exit : Bool) (compile_log : String)
    (runs : List SandboxProgram) : List TestCaseResult :=
  if !compile_normal_exit then
    match runs with
    | [] => []
    | _ :: rest =>
      { state := .kCE, score := 0, info := compile_log } ::
        rest.map (fun _ => ({ state := .kCE, score := 0, info := "" } : TestCaseResult))
  else runs.map CppRunner.GetState

/-- One executed checker node, as observed by `CppGrader::GetScore`:
whether it exited normally, and the lines of its `<i>.res` output file
(`none` when the file cannot be opened). -/
structure CheckerProgram where
  normal_exit : Bool := false
  res_file : Option (List String) := none
deriving DecidableEq, Repr

/-- Value of a non-empty digit run, most significant digit first. -/
def digitsVal (ds : List Char) : Nat :=
  ds.foldl (fun a c => a * 10 + (c.toNat - 48)) 0

/-- Leading digit run of a character list, as `operator>>(istream, int)` would
consume it; `none` when no digit is available. -/
def leadingNat (cs : List Char) : Option Nat :=
  let ds := cs.takeWhile Char.isDigit
  if ds.isEmpty then none else some (digitsVal ds)

/-- Largest value of the C++ `int` the checker score is extracted into. -/
def intMax : Int := 2147483647

/-- Smallest value of the C++ `int` the checker score is extracted into. -/
def intMin : Int := -2147483648

/-- `istringstream >> int` on one line: skip leading whitespace, optional
sign, then at least one digit; extraction fails when no digit is available
and also when the value does not fit in `int` (`num_get` sets `failbit` on
out-of-range values, clamping the stored value — which the source then
overwrites with 0 on the failed extraction, so the clamped value is never
observed). -/
def extractInt (s : String) : Option Int :=
  let cs := s.data.dropWhile (fun c =>
    c == ' ' || c == '\t' || c == '\n' || c == '\r' || c == '\x0b' || c == '\x0c')
  let fit : Int → Option Int := fun v =>
    if v < intMin ∨ intMax < v then none else some v
  match cs with
  | '-' :: rest => (leadingNat rest).bind (fun n => fit (-(n : Int)))
  | '+' :: rest => (leadingNat rest).bind (fun n => fit ((n : Int)))
  | _ => (leadingNat cs).bind (fun n => fit ((n : Int)))

/-- Score taken from the first line of the checker output: on a failed
extraction the source re-assigns 0 (`if (!(iss >> score)) score = 0;`), and
with no first line the initial 0 survives. -/
def firstLineScore (lines : List String) : Int :=
  match lines.head? with
  | some l => (extractInt l).getD 0
  | none => 0

/-- Diagnostic taken from the second line of the checker output, empty when
absent. -/
def secondLineInfo (lines : List String) : String :=
  match lines.get? 1 with
  | some l => l
  | none => ""

/-- `CppGrader::GetScore` (`src/Judge/src/Judger/CppJudger.cc`, lines 220-265):
interpret one checker node against the full score of its test case. -/
def CppGrader.GetScore (sp : CheckerProgram) (full_score : Int) : TestCaseResult :=
  if !sp.normal_exit then { state := .kUKN, score := 0, info := "judge error" }
  else
    match sp.res_file with
    | none => { state := .kUKN, score := 0, info := "judge error" }
    | some lines =>
      let score := firstLineScore lines
      let info := secondLineInfo lines
      if score > full_score || score < -1 then
        { state := .kUKN, score := 0, info := "judge error" }
      else if score == full_score || score == -1 then
        { state := .kAC, score := full_score, info := info }
      else
        { state := .kWA, score := score, info := info }

/-- `CppGrader::GetResult` (`src/Judge/src/Judger/CppJudger.cc`, lines 211-217):
one `GetScore` per checker node, paired with the full score
`problem_->test_case_[i].score_` of its case. -/
def CppGrader.GetResult (checkers : List (CheckerProgram × Int)) : List TestCaseResult :=
  checkers.map (fun p => CppGrader.GetScore p.1 p.2)

/-- First loop of `Judger::Converge` (`src/Judge/src/judger.cc`, lines 70-78):
start from the runner result and, when the runner state is `kAC`, overwrite
`state_`, `info_` and `score_` from the grader result.  (The source reads
`runner_result[i].state_` after moving the record out; the move leaves the
scalar `state_` member unchanged, so the condition sees the original state.) -/
def Judger.convergeCases (rr gr : List TestCaseResult) : List TestCaseResult :=
  List.zipWith
    (fun r g =>
      if r.state = .kAC then { r with state := g.state, info := g.info, score := g.score }
      else r)
    rr gr

/-- Second loop of `Judger::Converge` (`src/Judge/src/judger.cc`, lines 80-95):
fold the converged cases into the overall state, overall info and total score.
On a `kCE` case the loop breaks before adding that case's score. -/
def Judger.convergeFold (overall : JudgeState) (info : String) (score : Int) :
    List TestCaseResult → JudgeState × String × Int
  | [] => (overall, info, score)
  | c :: rest =>
    if c.state ≠ .kAC then
      if c.state = .kCE then (.kCE, c.info, score)
      else
        Judger.convergeFold
          (if overall ≠ .kAC ∧ overall ≠ c.state then .kMUL else c.state)
          info (score + c.score) rest
    else Judger.convergeFold overall info (score + c.score) rest

/-- `Judger::Converge` (`src/Judge/src/judger.cc`, lines 62-98): merge the two
per-case vectors, then fold the overall verdict and total score.  `sid` is
`runner_->GetSolution()->id_`. -/
def Judger.Converge (sid : String) (rr gr : List TestCaseResult) : Result :=
  let cases := Judger.convergeCases rr gr
  let fold := Judger.convergeFold .kAC "" 0 cases
  { testcase_rel := cases, state := fold.1, id := sid, score := fold.2.2, info := fold.2.1 }

/-- The interpret-and-converge tail of one judging run (`Judger::Judge`,
`src/Judge/src/judger.cc`, lines 55-57): runner result and grader result fed
into `Converge`. -/
def JudgePipelineResult (sid : String) (compile_normal_exit : Bool) (compile_log : String)
    (runs : List SandboxProgram) (checkers : List (CheckerProgram × Int)) : Result :=
  Judger.Converge sid
    (CppRunner.GetResult compile_normal_exit compile_log runs)
    (CppGrader.GetResult checkers)

/-! ### Sandbox program tree and execution order

`Sandbox::Run` / `Sandbox::RunProgram` (`src/Judge/src/Sandbox.cc`, lines
62-70 and 101-130).  A node is modelled by the outcome `Excute` will record
for it (`normal_exit_`), a label standing for the node's identity, and its
ordered children; the trace of a run is the list of labels of the nodes
`Excute` is called on, in call order. -/

/-- A program node as traversed by the sandbox: label, the `normal_exit_`
value its execution produces, and the ordered `child_` list. -/
inductive PNode where
  | mk : Nat → Bool → List PNode → PNode

def PNode.label : PNode → Nat
  | .mk l _ _ => l

def PNode.normalExit : PNode → Bool
  | .mk _ b _ => b

def PNode.child : PNode → List PNode
  | .mk _ _ cs => cs

mutual

/-- Number of nodes in a subtree. -/
def PNode.size : PNode → Nat
  | .mk _ _ cs => 1 + PNode.sizeList cs

/-- Number of nodes in a forest. -/
def PNode.sizeList : List PNode → Nat
  | [] => 0
  | t :: ts => PNode.size t + PNode.sizeList ts

end

/-- Weight of an explicit-stack state: nodes still reachable from each
`(parent, next-child-index)` entry. -/
def stackWeight : List (PNode × Nat) → Nat
  | [] => 0
  | (t, i) :: rest => PNode.sizeList (t.child.drop i) + stackWeight rest

theorem PNode.size_pos (t : PNode) : 0 < t.size := by
  cases t with
  | mk l b cs => simp [PNode.size]

theorem PNode.size_eq_child (t : PNode) : t.size = 1 + PNode.sizeList t.child := by
  cases t with
  | mk l b cs => simp [PNode.size, PNode.child]

theorem drop_of_get?_eq_some {α : Type} {l : List α} {i : Nat} {a : α}
    (h : l.get? i = some a) : l.drop i = a :: l.drop (i + 1) := by
  induction l generalizing i with
  | nil => simp at h
  | cons x xs ih =>
    cases i with
    | zero => simp_all
    | succ n => simpa using ih (by simpa using h)

/-- The `while (!stk.empty())` loop of `Sandbox::RunProgram`
(`src/Judge/src/Sandbox.cc`, lines 114-129): pop `(parent, index)`, take the
child at `index`, push the parent back when more siblings remain, execute the
child, and push the child with index 0 when it exited normally and has
children.  (An entry whose index is out of range never arises from the
sandbox; the embedding skips it.) -/
def runLoop (s : List (PNode × Nat)) : List Nat :=
  match s with
  | [] => []
  | (t, i) :: rest =>
    match h : t.child.get? i with
    | none => runLoop rest
    | some p =>
      if i + 1 < t.child.length then
        if p.normalExit && !p.child.isEmpty then
          p.label :: runLoop ((p, 0) :: (t, i + 1) :: rest)
        else
          p.label :: runLoop ((t, i + 1) :: rest)
      else
        if p.normalExit && !p.child.isEmpty then
          p.label :: runLoop ((p, 0) :: rest)
        else
          p.label :: runLoop rest
termination_by 2 * stackWeight s + s.length
decreasing_by
  · have hnil : t.child.drop i = [] :=
      List.drop_eq_nil_of_le (List.get?_eq_none.mp h)
    simp only [stackWeight, hnil, PNode.sizeList, List.length_cons]
    omega
  · have hd := drop_of_get?_eq_some h
    have hs := PNode.size_eq_child p
    simp only [stackWeight, hd, PNode.sizeList, List.drop_zero, List.length_cons]
    omega
  · have hd := drop_of_get?_eq_some h
    have hs := PNode.size_eq_child p
    simp only [stackWeight, hd, PNode.sizeList, List.length_cons]
    omega
  · have hd := drop_of_get?_eq_some h
    have hs := PNode.size_eq_child p
    simp only [stackWeight, hd, PNode.sizeList, List.drop_zero, List.length_cons]
    omega
  · have hd := drop_of_get?_eq_some h
    have hp := PNode.size_pos p
    simp only [stackWeight, hd, PNode.sizeList, List.length_cons]
    omega

/-- `Sandbox::RunProgram` (`src/Judge/src/Sandbox.cc`, lines 101-130): execute
the root; if it exited normally and has children, run the explicit-stack loop
over its subtree. -/
def Sandbox.RunProgram (p : PNode) : List Nat :=
  p.label :: (if p.normalExit && !p.child.isEmpty then runLoop [(p, 0)] else [])

/-- `Sandbox::Run` (`src/Judge/src/Sandbox.cc`, lines 62-70): run every root
program in insertion order. -/
def Sandbox.Run : List PNode → List Nat
  | [] => []
  | p :: ps => Sandbox.RunProgram p ++ Sandbox.Run ps

mutual

/-- The execution order the claim describes: a node is executed, then — only
when it finished with `normal_exit` true — the subtrees of its children follow
in insertion order (depth-first preorder with pruning). -/
def preorderClaim : PNode → List Nat
  | .mk l ne cs => l :: (if ne then preorderClaimList cs else [])

/-- `preorderClaim` over a forest, in order. -/
def preorderClaimList : List PNode → List Nat
  | [] => []
  | t :: ts => preorderClaim t ++ preorderClaimList ts

end

/-- Trace contributed by a stack of `(parent, next-child-index)` entries under
the claim's reading: each entry contributes the pruned preorder traversals of
the parent's remaining children. -/
def stackClaim : List (PNode × Nat) → List Nat
  | [] => []
  | (t, i) :: rest => preorderClaimList (t.child.drop i) ++ stackClaim rest

/-- The overall-verdict fold as the claim words it: start at `kAC`; scan the
cases in order; the first `kCE` case makes the overall verdict `kCE`, copies
its info and stops; otherwise a non-`kAC` case turns an already non-`kAC`
different overall verdict into `kMUL` and is adopted otherwise. -/
def overallClaim (overall : JudgeState) (info : String) :
    List TestCaseResult → JudgeState × String
  | [] => (overall, info)
  | c :: rest =>
    if c.state = .kCE then (.kCE, c.info)
    else if c.state = .kAC then overallClaim overall info rest
    else
      overallClaim
        (if overall ≠ .kAC ∧ overall ≠ c.state then .kMUL else c.state)
        info rest

/-! ### Sandbox supervision: recording a reaped child

`Sandbox::Excute` (`src/Judge/src/Sandbox.cc`, lines 397-422), parent side
after `waitpid` reaps the child. -/

/-- The record step after reaping (`src/Judge/src/Sandbox.cc`, lines 413-421):
store the raw status, set `normal_exit_` only when `WIFEXITED`, and copy the
cgroup's time and memory readings.  Note that `cgroup_oom_` is not assigned
anywhere in the source. -/
def Sandbox.ExcuteReap (sp : SandboxProgram) (status : Nat)
    (run_time_ms : Int) (run_mem : Nat) : SandboxProgram :=
  let sp1 := { sp with state := status }
  let sp2 :=
    if WIFEXITED status then { sp1 with normal_exit := WEXITSTATUS status == 0 } else sp1
  { sp2 with time_ms := run_time_ms, mem_byte := run_mem }

/-- `CGroup::IsCgroupOom` (`src/Judge/src/CGroup.cc`, lines 196-214): read
`memory.events` (modelled as its parsed key/value lines, `none` when the file
cannot be opened) and report whether an `oom` or `oom_kill` count is
positive. -/
def CGroup.IsCgroupOom (mem_events : Option (List (String × Int))) : Bool :=
  match mem_events with
  | none => false
  | some evs => evs.any (fun kv => (kv.1 == "oom" || kv.1 == "oom_kill") && kv.2 > 0)

/-! ### Factory -/

/-- Per-case data, from `struct TestCase` in `src/Judge/src/Problem.h`. -/
structure TestCase where
  id : Int := 0
  data_path : String := ""
  answer_path : String := ""
  time_limit : Option Int := none
  mem_limit : Option Nat := none
  score : Int := 0
deriving DecidableEq, Repr

/-- Problem record, from `src/Judge/src/Problem.h`. -/
structure Problem where
  id : String := ""
  name : String := ""
  checker_path : String := ""
  checker_language : Language := .kCpp
  test_case : List TestCase := []
deriving DecidableEq, Repr

/-- Solution record, from `src/Judge/src/Solution.h`. -/
structure Solution where
  id : String := ""
  text_path : String := ""
  language : Language := .kCpp
deriving DecidableEq, Repr

/-- The concrete runner strategies the factory can build. -/
inductive RunnerKind where
  | cppRunner
deriving DecidableEq, Repr

/-- The concrete grader strategies the factory can build. -/
inductive GraderKind where
  | cppGrader
deriving DecidableEq, Repr

/-- A judger as assembled by the factory: the `Judger(runner, grader)` value,
with `none` standing for a null strategy pointer. -/
structure JudgerHandle where
  runner : Option RunnerKind
  grader : Option GraderKind
deriving DecidableEq, Repr

/-- `JudgerFactory::GetJudger` (`src/Judge/src/JudgerFactory.cc`, lines 9-37):
switch on the checker language (only `kCpp` builds a grader; the `kPython`
case is empty and falls through to `default`), switch on the solution language
(only `kCpp` builds a runner), then always wrap `Judger(runner, grader)` in an
engaged optional. -/
def JudgerFactory.GetJudger (problem : Problem) (solution : Solution) :
    Option JudgerHandle :=
  let grader : Option GraderKind :=
    match problem.checker_language with
    | .kCpp => some .cppGrader
    | _ => none
  let runner : Option RunnerKind :=
    match solution.language with
    | .kCpp => some .cppRunner
    | _ => none
  some { runner := runner, grader := grader }

/-! ### Sandbox staging directory -/

/-- POSIX error codes distinguished by the sandbox constructor. -/
inductive Errno where
  | eexist | enoent | eacces
deriving DecidableEq, Repr

/-- A flat model of the filesystem region the sandbox stages into: existing
directories with their entries. -/
structure FileSys where
  dirs : List (String × List String)
deriving DecidableEq, Repr

/-- Contents of the directory at a path, when it exists. -/
def FileSys.lookup (fs : FileSys) (p : String) : Option (List String) :=
  (fs.dirs.find? (fun e => e.1 == p)).map (fun e => e.2)

/-- POSIX `mkdir` on the model: fails with `EEXIST`, leaving the filesystem
unchanged, when the directory already exists; otherwise creates it empty. -/
def FileSys.mkdir (fs : FileSys) (p : String) : FileSys × Option Errno :=
  if (fs.lookup p).isSome then (fs, some .eexist)
  else ({ dirs := (p, []) :: fs.dirs }, none)

/-- `Utils::RemoveDirRecursive` (`src/Judge/src/fuzoj_utils.cc`, line 54):
remove the directory and everything in it. -/
def FileSys.removeDirRecursive (fs : FileSys) (p : String) : FileSys :=
  { dirs := fs.dirs.filter (fun e => !(e.1 == p)) }

/-- The fields of `class Sandbox` (`src/Judge/src/sandbox.h`) involved in
staging: the stage path and the valid flag. -/
structure SandboxState where
  path : String
  valid : Bool
deriving DecidableEq, Repr

/-- `Sandbox::Sandbox` (`src/Judge/src/Sandbox.cc`, lines 24-30): append `/`
to the requested path, `mkdir` it, and stay valid unless `mkdir` failed with
an errno other than `EEXIST`. -/
def Sandbox.create (path : String) (fs : FileSys) : SandboxState × FileSys :=
  let full := path ++ "/"
  match FileSys.mkdir fs full with
  | (fs1, none) => (⟨full, true⟩, fs1)
  | (fs1, some e) => (⟨full, e == .eexist⟩, fs1)

/-- `Sandbox::Destroy` (`src/Judge/src/Sandbox.cc`, lines 53-60), run by the
destructor: when valid, remove the stage directory recursively and invalidate
the handle. -/
def Sandbox.Destroy (sb : SandboxState) (fs : FileSys) : SandboxState × FileSys :=
  if !sb.valid then (sb, fs)
  else ({ sb with valid := false }, fs.removeDirRecursive sb.path)

/-! ## Theorems -/

/-! ### C9: the factory never returns an empty optional -/

/-- C9 counterexample: for the (Python, Python) language pair — which is not
(Cpp, Cpp) — `JudgerFactory::GetJudger` still returns an engaged optional,
refuting the claim that every pair other than (Cpp, Cpp) yields no judger. -/
theorem c9_counterexample :
    (JudgerFactory.GetJudger { checker_language := .kPython }
        { language := .kPython }).isSome = true := rfl

/-- C9 amended: `JudgerFactory::GetJudger` always returns an engaged optional;
the judger it returns has its runner strategy wired exactly when the solution
language is Cpp and its grader strategy wired exactly when the checker
language is Cpp — other combinations yield a judger with missing (null)
strategies, not an empty optional. -/
theorem c9_amended (problem : Problem) (solution : Solution) :
    ∃ j, JudgerFactory.GetJudger problem solution = some j ∧
      (j.runner = some .cppRunner ↔ solution.language = .kCpp) ∧
      (j.grader = some .cppGrader ↔ problem.checker_language = .kCpp) := by
  refine ⟨_, rfl, ?_, ?_⟩
  · cases h : solution.language <;> simp [JudgerFactory.GetJudger, h]
  · cases h : problem.checker_language <;> simp [JudgerFactory.GetJudger, h]

/-! ### C10: constructing a sandbox over an existing directory -/

theorem FileSys.lookup_removeDirRecursive (fs : FileSys) (p : String) :
    (fs.removeDirRecursive p).lookup p = none := by
  have hall : ∀ e ∈ fs.dirs.filter (fun e => !(e.1 == p)),
      ¬((fun e : String × List String => e.1 == p) e = true) := by
    intro e he
    have hf := List.of_mem_filter he
    simpa using hf
  simp only [FileSys.lookup, FileSys.removeDirRecursive]
  rw [List.find?_eq_none.mpr hall]
  rfl

/-- C10: constructing a `Sandbox` for a path whose directory already exists
succeeds silently — `mkdir`'s `EEXIST` is treated as success, the handle is
valid, the stage path is adopted with its old contents uncleared — and
`Destroy` (run by the destructor) removes that same pre-existing directory. -/
theorem c10_sandbox_adopts_existing_dir (path : String) (fs : FileSys)
    (contents : List String) (h : fs.lookup (path ++ "/") = some contents) :
    (Sandbox.create path fs).1.valid = true ∧
    (Sandbox.create path fs).1.path = path ++ "/" ∧
    (Sandbox.create path fs).2 = fs ∧
    (Sandbox.create path fs).2.lookup (path ++ "/") = some contents ∧
    ((Sandbox.Destroy (Sandbox.create path fs).1
        (Sandbox.create path fs).2).2.lookup (path ++ "/") = none) := by
  have hsome : (fs.lookup (path ++ "/")).isSome = true := by rw [h]; rfl
  have hc : Sandbox.create path fs = (⟨path ++ "/", true⟩, fs) := by
    simp [Sandbox.create, FileSys.mkdir, hsome]
  rw [hc]
  refine ⟨rfl, rfl, rfl, h, ?_⟩
  simp [Sandbox.Destroy, FileSys.lookup_removeDirRecursive]

/-- C10 witness: a filesystem that already holds the stage directory
`CPP_1/` with an old file in it. -/
theorem c10_witness :
    (FileSys.mk [("CPP_1/", ["old.txt"])]).lookup ("CPP_1" ++ "/")
        = some ["old.txt"] ∧
    (Sandbox.create "CPP_1" (FileSys.mk [("CPP_1/", ["old.txt"])])).1.valid = true ∧
    ((Sandbox.Destroy
        (Sandbox.create "CPP_1" (FileSys.mk [("CPP_1/", ["old.txt"])])).1
        (Sandbox.create "CPP_1" (FileSys.mk [("CPP_1/", ["old.txt"])])).2).2.lookup
          ("CPP_1" ++ "/") = none) := by
  have h : (FileSys.mk [("CPP_1/", ["old.txt"])]).lookup ("CPP_1" ++ "/")
      = some ["old.txt"] := by decide
  have hmain := c10_sandbox_adopts_existing_dir "CPP_1"
    (FileSys.mk [("CPP_1/", ["old.txt"])]) ["old.txt"] h
  exact ⟨h, hmain.1, hmain.2.2.2.2⟩

/-! ### C4: the reap step never records the cgroup OOM flag -/

/-- C4 (code bug): when the supervisor reaps a SIGKILLed child (status 9), the
node records the raw wait status, the cgroup time and memory readings and
`normal_exit = false` as claimed, but even though `CGroup::IsCgroupOom` would
read true from a `memory.events` reporting `oom 1`, the node's `cgroup_oom`
stays false: `Sandbox::Excute` never assigns `cgroup_oom_` and never calls
`IsCgroupOom`. -/
theorem c4_cgroup_oom_never_recorded :
    CGroup.IsCgroupOom (some [("oom", 1)]) = true ∧
    (Sandbox.ExcuteReap {} 9 1500 2000000).state = 9 ∧
    (Sandbox.ExcuteReap {} 9 1500 2000000).time_ms = 1500 ∧
    (Sandbox.ExcuteReap {} 9 1500 2000000).mem_byte = 2000000 ∧
    (Sandbox.ExcuteReap {} 9 1500 2000000).normal_exit = false ∧
    (Sandbox.ExcuteReap {} 9 1500 2000000).cgroup_oom = false := by
  refine ⟨by decide, ?_, ?_, ?_, ?_, ?_⟩ <;> decide

/-! ### C7: checker fault handling in the grader -/

/-- C7 counterexample: a checker that exits normally and writes the
unparseable first line "abc" for a case worth 100 points is graded `kWA` with
score 0 (keeping the second line as info), not `kUKN` with info
"judge error" as the claim states. -/
theorem c7_counterexample :
    extractInt "abc" = none ∧
    CppGrader.GetScore { normal_exit := true, res_file := some ["abc", "oops"] } 100
      = { state := .kWA, score := 0, info := "oops" } := by
  exact ⟨by decide, by decide⟩

/-- C7 amended: a checker that did not terminate normally, a missing result
file, or a parsed score out of range (greater than the full score or below -1)
give `kUKN` with info "judge error" and score 0; but a first line that is
missing or whose extraction as an `int` fails — no digits, or a value outside
the `int` range such as 2147483648 — makes the score 0, which for a positive
full score yields `kWA` with score 0 instead of a judge error. -/
theorem c7_checker_fault_handling (chk : CheckerProgram) (full : Int) :
    (chk.normal_exit = false →
      CppGrader.GetScore chk full
        = { state := .kUKN, score := 0, info := "judge error" }) ∧
    (chk.res_file = none →
      CppGrader.GetScore chk full
        = { state := .kUKN, score := 0, info := "judge error" }) ∧
    (∀ lines, chk.normal_exit = true → chk.res_file = some lines →
      (full < firstLineScore lines ∨ firstLineScore lines < -1) →
      CppGrader.GetScore chk full
        = { state := .kUKN, score := 0, info := "judge error" }) ∧
    (∀ lines, chk.normal_exit = true → chk.res_file = some lines →
      (match lines.head? with
        | some l => extractInt l = none
        | none => True) →
      0 < full →
      (CppGrader.GetScore chk full).state = .kWA ∧
        (CppGrader.GetScore chk full).score = 0) := by
  refine ⟨?_, ?_, ?_, ?_⟩
  · intro hne
    simp [CppGrader.GetScore, hne]
  · intro hnf
    cases hne : chk.normal_exit <;> simp [CppGrader.GetScore, hne, hnf]
  · intro lines hne hf hrange
    have h1 : (firstLineScore lines > full ∨ firstLineScore lines < -1) := by
      omega
    simp only [CppGrader.GetScore, hne, hf, Bool.not_true, Bool.false_eq_true,
      if_false]
    rw [if_pos]
    simp only [gt_iff_lt, decide_eq_true_eq, Bool.or_eq_true]
    omega
  · intro lines hne hf hparse hfull
    have hz : firstLineScore lines = 0 := by
      cases hl : lines.head? with
      | none => simp [firstLineScore, hl]
      | some l =>
        rw [hl] at hparse
        simp [firstLineScore, hl, hparse]
    simp only [CppGrader.GetScore, hne, hf, Bool.not_true, Bool.false_eq_true,
      if_false]
    rw [if_neg, if_neg]
    · exact ⟨rfl, hz⟩
    · simp only [hz, Bool.or_eq_true, beq_iff_eq]
      omega
    · simp only [hz, gt_iff_lt, decide_eq_true_eq, Bool.or_eq_true]
      omega

/-- C7 witness: normally-exited checkers whose result file's only line is
"abc", respectively the out-of-`int`-range "2147483648", for a case worth 7
(respectively 100) points: both extractions fail and both cases are graded
`kWA` with score 0. -/
theorem c7_witness :
    ({ normal_exit := true, res_file := some ["abc"] } : CheckerProgram).normal_exit
        = true ∧
    (0 : Int) < 7 ∧
    (CppGrader.GetScore { normal_exit := true, res_file := some ["abc"] } 7).state
        = .kWA ∧
    (CppGrader.GetScore { normal_exit := true, res_file := some ["abc"] } 7).score
        = 0 ∧
    extractInt "2147483648" = none ∧
    (CppGrader.GetScore
        { normal_exit := true, res_file := some ["2147483648"] } 100).state
        = .kWA ∧
    (CppGrader.GetScore
        { normal_exit := true, res_file := some ["2147483648"] } 100).score
        = 0 := by
  have h := (c7_checker_fault_handling
      { normal_exit := true, res_file := some ["abc"] } 7).2.2.2
      ["abc"] rfl rfl (show extractInt "abc" = none by decide) (by decide)
  have h2 := (c7_checker_fault_handling
      { normal_exit := true, res_file := some ["2147483648"] } 100).2.2.2
      ["2147483648"] rfl rfl
      (show extractInt "2147483648" = none by decide) (by decide)
  exact ⟨rfl, by decide, h.1, h.2, by decide, h2.1, h2.2⟩

/-! ### C1: per-case convergence -/

theorem zipWith_get?_of_get? {α β γ : Type} (f : α → β → γ) :
    ∀ (la : List α) (lb : List β) (i : Nat) (a : α) (b : β),
      la.get? i = some a → lb.get? i = some b →
      (List.zipWith f la lb).get? i = some (f a b) := by
  intro la
  induction la with
  | nil => intro lb i a b ha; simp at ha
  | cons x xs ih =>
    intro lb i a b ha hb
    cases lb with
    | nil => simp at hb
    | cons y ys =>
      cases i with
      | zero => simp_all
      | succ n =>
        simp only [List.zipWith_cons_cons, List.get?_cons_succ] at ha hb ⊢
        exact ih ys n a b ha hb

/-- C1: in `Judger::Converge`, the converged per-case result at index `i`
takes state, info and score from the grader's result when the runner's state
is `kAC` (keeping the runner's time, memory and id), and equals the runner's
result unchanged otherwise. -/
theorem c1_converge_per_case (sid : String) (rr gr : List TestCaseResult)
    (i : Nat) (r g : TestCaseResult)
    (hr : rr.get? i = some r) (hg : gr.get? i = some g) :
    ∃ c, (Judger.Converge sid rr gr).testcase_rel.get? i = some c ∧
      (r.state = .kAC →
        c.state = g.state ∧ c.info = g.info ∧ c.score = g.score ∧
        c.time_ms = r.time_ms ∧ c.mem_byte = r.mem_byte ∧ c.id = r.id) ∧
      (r.state ≠ .kAC → c = r) := by
  refine ⟨_, zipWith_get?_of_get? _ rr gr i r g hr hg, ?_, ?_⟩
  · intro hac
    simp [hac]
  · intro hac
    simp [hac]

/-- C1 witness: one AC runner case overwritten by a WA grader case. -/
theorem c1_witness :
    ∃ c, (Judger.Converge "sol"
        [{ state := .kAC, time_ms := 5, mem_byte := 6 }]
        [{ state := .kWA, info := "diff", score := 3 }]).testcase_rel.get? 0
        = some c ∧
      (({ state := .kAC, time_ms := 5, mem_byte := 6 } : TestCaseResult).state
          = .kAC →
        c.state = ({ state := .kWA, info := "diff", score := 3 }
            : TestCaseResult).state ∧
        c.info = "diff" ∧ c.score = 3 ∧ c.time_ms = 5 ∧ c.mem_byte = 6 ∧
        c.id = 0) ∧
      (({ state := .kAC, time_ms := 5, mem_byte := 6 } : TestCaseResult).state
          ≠ .kAC →
        c = { state := .kAC, time_ms := 5, mem_byte := 6 }) :=
  c1_converge_per_case "sol"
    [{ state := .kAC, time_ms := 5, mem_byte := 6 }]
    [{ state := .kWA, info := "diff", score := 3 }] 0
    { state := .kAC, time_ms := 5, mem_byte := 6 }
    { state := .kWA, info := "diff", score := 3 } rfl rfl

/-! ### C3: the runner's interpretation of an executed node -/

theorem limitChecks_state (sp : SandboxProgram) (r : TestCaseResult) :
    (limitChecks sp r).state =
      (if timeExceeded sp then .kTLE else if memExceeded sp then .kMLE
        else r.state) := by
  unfold limitChecks
  split_ifs <;> rfl

theorem limitChecks_time_ms (sp : SandboxProgram) (r : TestCaseResult) :
    (limitChecks sp r).time_ms = r.time_ms := by
  unfold limitChecks
  split_ifs <;> rfl

theorem limitChecks_mem_byte (sp : SandboxProgram) (r : TestCaseResult) :
    (limitChecks sp r).mem_byte = r.mem_byte := by
  unfold limitChecks
  split_ifs <;> rfl

theorem WIFEXITED_eq_false_of_signaled {s : Nat} (h : WIFSIGNALED s = true) :
    WIFEXITED s = false := by
  simp only [WIFSIGNALED, Bool.and_eq_true, bne_iff_ne, ne_eq] at h
  simp only [WIFEXITED, beq_eq_false_iff_ne, ne_eq]
  exact h.1

/-- C3: `CppRunner::GetState` on an executed run node: time and memory are
always copied from the node; a normally-exited node is `kAC` unless a set time
or memory limit is exceeded (then `kTLE` / `kMLE`); a node that exited with a
nonzero code is `kRE` with info "return value is not zero."; a node killed by
SIGSEGV is `kRE` "segment fault.", by SIGFPE `kFPE`, and by SIGKILL `kMLE`
when the node's cgroup-OOM flag is set, else `kRE` — the SIGKILL/`kRE` path
then still undergoes the time- and memory-limit checks. -/
theorem c3_runner_get_state (sp : SandboxProgram) :
    ((CppRunner.GetState sp).time_ms = sp.time_ms ∧
      (CppRunner.GetState sp).mem_byte = sp.mem_byte) ∧
    (sp.normal_exit = true →
      (CppRunner.GetState sp).state =
        (if timeExceeded sp then .kTLE else if memExceeded sp then .kMLE
          else .kAC)) ∧
    (sp.normal_exit = false → WIFEXITED sp.state = true →
      WEXITSTATUS sp.state ≠ 0 →
      (CppRunner.GetState sp).state = .kRE ∧
        (CppRunner.GetState sp).info = "return value is not zero.") ∧
    (sp.normal_exit = false → WIFSIGNALED sp.state = true →
      WTERMSIG sp.state = SIGSEGV →
      (CppRunner.GetState sp).state = .kRE ∧
        (CppRunner.GetState sp).info = "segment fault.") ∧
    (sp.normal_exit = false → WIFSIGNALED sp.state = true →
      WTERMSIG sp.state = SIGFPE →
      (CppRunner.GetState sp).state = .kFPE) ∧
    (sp.normal_exit = false → WIFSIGNALED sp.state = true →
      WTERMSIG sp.state = SIGKILL → sp.cgroup_oom = true →
      (CppRunner.GetState sp).state = .kMLE) ∧
    (sp.normal_exit = false → WIFSIGNALED sp.state = true →
      WTERMSIG sp.state = SIGKILL → sp.cgroup_oom = false →
      (CppRunner.GetState sp).state =
        (if timeExceeded sp then .kTLE else if memExceeded sp then .kMLE
          else .kRE)) := by
  refine ⟨?_, ?_, ?_, ?_, ?_, ?_, ?_⟩
  · unfold CppRunner.GetState
    split_ifs <;>
      simp [limitChecks_time_ms, limitChecks_mem_byte]
  · intro hne
    simp only [CppRunner.GetState, hne, Bool.not_true, Bool.false_eq_true,
      if_false]
    rw [limitChecks_state]
  · intro hne hex hret
    have hret' : (WEXITSTATUS sp.state != 0) = true := by
      simpa using hret
    simp [CppRunner.GetState, hne, hex, hret']
  · intro hne hsig hterm
    have hex := WIFEXITED_eq_false_of_signaled hsig
    simp [CppRunner.GetState, hne, hex, hsig, hterm, SIGSEGV]
  · intro hne hsig hterm
    have hex := WIFEXITED_eq_false_of_signaled hsig
    simp [CppRunner.GetState, hne, hex, hsig, hterm, SIGSEGV, SIGFPE]
  · intro hne hsig hterm hoom
    have hex := WIFEXITED_eq_false_of_signaled hsig
    simp [CppRunner.GetState, hne, hex, hsig, hterm, SIGSEGV, SIGFPE, SIGKILL,
      hoom]
  · intro hne hsig hterm hoom
    have hex := WIFEXITED_eq_false_of_signaled hsig
    simp only [CppRunner.GetState, hne, hex, hsig, hterm, SIGSEGV, SIGFPE,
      SIGKILL, hoom, Bool.not_false, if_true, Bool.false_eq_true, if_false,
      show ((11 : Nat) == 11) = true from rfl]
    norm_num
    rw [limitChecks_state]

/-- C3 witness: a node killed by SIGKILL (status 9) without the OOM flag,
whose measured time 1500 ms exceeds its 1000 ms limit, is interpreted as
`kTLE`. -/
theorem c3_witness :
    ({ state := 9, normal_exit := false, time_limit := some 1000,
        time_ms := 1500 } : SandboxProgram).normal_exit = false ∧
    WIFSIGNALED 9 = true ∧
    WTERMSIG 9 = SIGKILL ∧
    (CppRunner.GetState
        { state := 9, normal_exit := false, time_limit := some 1000,
          time_ms := 1500 }).state = .kTLE := by
  have h := (c3_runner_get_state
      { state := 9, normal_exit := false, time_limit := some 1000,
        time_ms := 1500 }).2.2.2.2.2.2 rfl (by decide) (by decide) rfl
  refine ⟨rfl, by decide, by decide, ?_⟩
  rw [h]
  decide

/-! ### C2: folding the overall verdict -/

theorem convergeFold_eq_overallClaim :
    ∀ (cases : List TestCaseResult) (ov : JudgeState) (inf : String) (sc : Int),
      ((Judger.convergeFold ov inf sc cases).1,
        (Judger.convergeFold ov inf sc cases).2.1) = overallClaim ov inf cases := by
  intro cases
  induction cases with
  | nil => intro ov inf sc; rfl
  | cons c rest ih =>
    intro ov inf sc
    by_cases hce : c.state = .kCE
    · simp [Judger.convergeFold, overallClaim, hce]
    · by_cases hac : c.state = .kAC
      · simp only [Judger.convergeFold, overallClaim, hac]
        simp [ih]
      · rw [show Judger.convergeFold ov inf sc (c :: rest)
            = Judger.convergeFold
                (if ov ≠ .kAC ∧ ov ≠ c.state then .kMUL else c.state)
                inf (sc + c.score) rest by
          simp [Judger.convergeFold, hac, hce]]
        rw [show overallClaim ov inf (c :: rest)
            = overallClaim
                (if ov ≠ .kAC ∧ ov ≠ c.state then .kMUL else c.state)
                inf rest by
          simp [overallClaim, hac, hce]]
        exact ih _ _ _

/-- States of the converged cases come from the runner or grader states: any
property preserved by both vectors holds for every converged case. -/
theorem convergeCases_state_pred (P : JudgeState → Prop) :
    ∀ (rr gr : List TestCaseResult),
      (∀ c ∈ rr, P c.state) → (∀ c ∈ gr, P c.state) →
      ∀ c ∈ Judger.convergeCases rr gr, P c.state := by
  intro rr
  induction rr with
  | nil => intro gr _ _ c hc; simp [Judger.convergeCases] at hc
  | cons r rs ih =>
    intro gr hrr hgr c hc
    cases gr with
    | nil => simp [Judger.convergeCases] at hc
    | cons g gs =>
      simp only [Judger.convergeCases, List.zipWith_cons_cons,
        List.mem_cons] at hc
      rcases hc with hc | hc
      · subst hc
        by_cases hac : r.state = .kAC
        · simpa [hac] using hgr g (by simp)
        · simpa [hac] using hrr r (by simp)
      · exact ih gs (fun x hx => hrr x (by simp [hx]))
          (fun x hx => hgr x (by simp [hx])) c hc

theorem convergeFold_mul_origin :
    ∀ (cases : List TestCaseResult) (ov : JudgeState) (inf : String) (sc : Int),
      (∀ c ∈ cases, c.state ≠ .kMUL) → ov ≠ .kMUL →
      (Judger.convergeFold ov inf sc cases).1 = .kMUL →
      ∃ t, t ∈ cases.map TestCaseResult.state ∧
        t ≠ .kAC ∧ t ≠ .kCE ∧ t ≠ .kMUL ∧
        ((ov ≠ .kAC ∧ ov ≠ t) ∨
          ∃ s, s ∈ cases.map TestCaseResult.state ∧
            s ≠ .kAC ∧ s ≠ .kCE ∧ s ≠ .kMUL ∧ s ≠ t) := by
  intro cases
  induction cases with
  | nil =>
    intro ov inf sc _ hov hmul
    exact absurd hmul hov
  | cons c rest ih =>
    intro ov inf sc hall hov hmul
    have hc_ne_mul : c.state ≠ .kMUL := hall c (by simp)
    have hrest : ∀ x ∈ rest, x.state ≠ .kMUL :=
      fun x hx => hall x (by simp [hx])
    by_cases hac : c.state = .kAC
    · rw [show Judger.convergeFold ov inf sc (c :: rest)
          = Judger.convergeFold ov inf (sc + c.score) rest by
        simp [Judger.convergeFold, hac]] at hmul
      obtain ⟨t, ht, h1, h2, h3, hd⟩ := ih ov inf (sc + c.score) hrest hov hmul
      refine ⟨t, by simp [ht], h1, h2, h3, ?_⟩
      rcases hd with hd | ⟨s, hs, hs1, hs2, hs3, hs4⟩
      · exact Or.inl hd
      · exact Or.inr ⟨s, by simp [hs], hs1, hs2, hs3, hs4⟩
    · by_cases hce : c.state = .kCE
      · rw [show Judger.convergeFold ov inf sc (c :: rest)
            = (.kCE, c.info, sc) by simp [Judger.convergeFold, hac, hce]] at hmul
        exact absurd hmul (by simp)
      · by_cases hbr : ov ≠ .kAC ∧ ov ≠ c.state
        · exact ⟨c.state, by simp, hac, hce, hc_ne_mul, Or.inl hbr⟩
        · rw [show Judger.convergeFold ov inf sc (c :: rest)
              = Judger.convergeFold c.state inf (sc + c.score) rest by
            simp [Judger.convergeFold, hac, hce, hbr]] at hmul
          obtain ⟨t, ht, h1, h2, h3, hd⟩ :=
            ih c.state inf (sc + c.score) hrest hc_ne_mul hmul
          refine ⟨t, by simp [ht], h1, h2, h3, ?_⟩
          rcases hd with ⟨hd1, hd2⟩ | ⟨s, hs, hs1, hs2, hs3, hs4⟩
          · exact Or.inr ⟨c.state, by simp, hd1, hce, hc_ne_mul, hd2⟩
          · exact Or.inr ⟨s, by simp [hs], hs1, hs2, hs3, hs4⟩

/-- C2: the overall verdict and info of `Judger::Converge` are exactly the
claim's fold (start at `kAC`, first `kCE` case wins and stops with its info,
a second distinct non-`kAC` state becomes `kMUL`); and whenever the overall
verdict is `kMUL`, at least two distinct non-`kAC`, non-`kCE` states appear
among the converged cases.  The hypotheses record that neither the runner nor
the grader produces a per-case `kMUL` state, which is how the pipeline always
calls `Converge`. -/
theorem c2_overall_fold (sid : String) (rr gr : List TestCaseResult)
    (hrr : ∀ c ∈ rr, c.state ≠ .kMUL) (hgr : ∀ c ∈ gr, c.state ≠ .kMUL) :
    (((Judger.Converge sid rr gr).state, (Judger.Converge sid rr gr).info)
        = overallClaim .kAC "" (Judger.convergeCases rr gr)) ∧
    ((Judger.Converge sid rr gr).state = .kMUL →
      ∃ s t, s ∈ (Judger.convergeCases rr gr).map TestCaseResult.state ∧
        t ∈ (Judger.convergeCases rr gr).map TestCaseResult.state ∧
        s ≠ t ∧ s ≠ .kAC ∧ t ≠ .kAC ∧ s ≠ .kCE ∧ t ≠ .kCE) := by
  constructor
  · exact convergeFold_eq_overallClaim (Judger.convergeCases rr gr) .kAC "" 0
  · intro hmul
    have hnomul : ∀ c ∈ Judger.convergeCases rr gr, c.state ≠ .kMUL :=
      convergeCases_state_pred (fun s => s ≠ .kMUL) rr gr hrr hgr
    have hfold : (Judger.convergeFold .kAC "" 0
        (Judger.convergeCases rr gr)).1 = .kMUL := hmul
    obtain ⟨t, ht, h1, h2, h3, hd⟩ :=
      convergeFold_mul_origin (Judger.convergeCases rr gr) .kAC "" 0
        hnomul (by simp) hfold
    rcases hd with ⟨hd1, _⟩ | ⟨s, hs, hs1, hs2, hs3, hs4⟩
    · exact absurd rfl hd1
    · exact ⟨s, t, hs, ht, hs4, hs1, h1, hs2, h2⟩

/-- C2 witness: runner cases WA then RE (grader irrelevant, runner non-AC
cases pass through) fold to `kMUL`, exhibiting two distinct non-AC, non-CE
states. -/
theorem c2_witness :
    (∀ c ∈ ([{ state := .kWA }, { state := .kRE }] : List TestCaseResult),
      c.state ≠ .kMUL) ∧
    ((Judger.Converge "sol" [{ state := .kWA }, { state := .kRE }]
        [{ state := .kAC }, { state := .kAC }]).state,
      (Judger.Converge "sol" [{ state := .kWA }, { state := .kRE }]
        [{ state := .kAC }, { state := .kAC }]).info)
      = overallClaim .kAC ""
          (Judger.convergeCases [{ state := .kWA }, { state := .kRE }]
            [{ state := .kAC }, { state := .kAC }]) := by
  refine ⟨by decide, ?_⟩
  exact (c2_overall_fold "sol" [{ state := .kWA }, { state := .kRE }]
    [{ state := .kAC }, { state := .kAC }] (by decide) (by decide)).1

/-! ### C5 and C6: pipeline-level verdict and score invariants -/

theorem GetState_state_ne_ce (sp : SandboxProgram) :
    (CppRunner.GetState sp).state ≠ .kCE := by
  unfold CppRunner.GetState
  split_ifs <;> (try simp) <;>
    (rw [limitChecks_state]; split_ifs <;> simp)

theorem GetState_state_ne_mul (sp : SandboxProgram) :
    (CppRunner.GetState sp).state ≠ .kMUL := by
  unfold CppRunner.GetState
  split_ifs <;> (try simp) <;>
    (rw [limitChecks_state]; split_ifs <;> simp)

theorem GetScore_state_cases (chk : CheckerProgram) (full : Int) :
    (CppGrader.GetScore chk full).state = .kUKN ∨
    (CppGrader.GetScore chk full).state = .kAC ∨
    (CppGrader.GetScore chk full).state = .kWA := by
  unfold CppGrader.GetScore
  cases chk.normal_exit with
  | false => simp
  | true =>
    cases chk.res_file with
    | none => simp
    | some lines => simp only [Bool.not_true, Bool.false_eq_true, if_false]; split_ifs <;> simp

theorem GetScore_state_ne_ce (chk : CheckerProgram) (full : Int) :
    (CppGrader.GetScore chk full).state ≠ .kCE := by
  rcases GetScore_state_cases chk full with h | h | h <;> simp [h]

theorem GetScore_state_ne_mul (chk : CheckerProgram) (full : Int) :
    (CppGrader.GetScore chk full).state ≠ .kMUL := by
  rcases GetScore_state_cases chk full with h | h | h <;> simp [h]

/-- When no runner case is `kAC`, the converged cases are exactly the runner
cases (the grader vector being at least as long, as asserted in the source). -/
theorem convergeCases_eq_left :
    ∀ (rr gr : List TestCaseResult), (∀ c ∈ rr, c.state ≠ .kAC) →
      rr.length ≤ gr.length → Judger.convergeCases rr gr = rr := by
  intro rr
  induction rr with
  | nil => intro gr _ _; simp [Judger.convergeCases]
  | cons r rs ih =>
    intro gr hall hlen
    cases gr with
    | nil => simp at hlen
    | cons g gs =>
      have hr : r.state ≠ .kAC := hall r (by simp)
      simp only [Judger.convergeCases, List.zipWith_cons_cons, if_neg hr]
      have := ih gs (fun x hx => hall x (by simp [hx])) (by simpa using hlen)
      simpa [Judger.convergeCases] using this

theorem convergeFold_fst_ne_ce :
    ∀ (cases : List TestCaseResult) (ov : JudgeState) (inf : String) (sc : Int),
      (∀ c ∈ cases, c.state ≠ .kCE) → ov ≠ .kCE →
      (Judger.convergeFold ov inf sc cases).1 ≠ .kCE := by
  intro cases
  induction cases with
  | nil => intro ov inf sc _ hov; simpa [Judger.convergeFold] using hov
  | cons c rest ih =>
    intro ov inf sc hall hov
    have hc : c.state ≠ .kCE := hall c (by simp)
    have hrest : ∀ x ∈ rest, x.state ≠ .kCE := fun x hx => hall x (by simp [hx])
    by_cases hac : c.state = .kAC
    · rw [show Judger.convergeFold ov inf sc (c :: rest)
          = Judger.convergeFold ov inf (sc + c.score) rest by
        simp [Judger.convergeFold, hac]]
      exact ih ov inf (sc + c.score) hrest hov
    · rw [show Judger.convergeFold ov inf sc (c :: rest)
          = Judger.convergeFold
              (if ov ≠ .kAC ∧ ov ≠ c.state then .kMUL else c.state)
              inf (sc + c.score) rest by
        simp [Judger.convergeFold, hac, hc]]
      refine ih _ inf (sc + c.score) hrest ?_
      split_ifs with h
      · simp
      · exact hc

theorem convergeFold_score_of_no_ce :
    ∀ (cases : List TestCaseResult) (ov : JudgeState) (inf : String) (sc : Int),
      (∀ c ∈ cases, c.state ≠ .kCE) →
      (Judger.convergeFold ov inf sc cases).2.2
        = sc + (cases.map TestCaseResult.score).sum := by
  intro cases
  induction cases with
  | nil => intro ov inf sc _; simp [Judger.convergeFold]
  | cons c rest ih =>
    intro ov inf sc hall
    have hc : c.state ≠ .kCE := hall c (by simp)
    have hrest : ∀ x ∈ rest, x.state ≠ .kCE := fun x hx => hall x (by simp [hx])
    by_cases hac : c.state = .kAC
    · rw [show Judger.convergeFold ov inf sc (c :: rest)
          = Judger.convergeFold ov inf (sc + c.score) rest by
        simp [Judger.convergeFold, hac]]
      rw [ih ov inf (sc + c.score) hrest]
      simp
      omega
    · rw [show Judger.convergeFold ov inf sc (c :: rest)
          = Judger.convergeFold
              (if ov ≠ .kAC ∧ ov ≠ c.state then .kMUL else c.state)
              inf (sc + c.score) rest by
        simp [Judger.convergeFold, hac, hc]]
      rw [ih _ inf (sc + c.score) hrest]
      simp
      omega

theorem sum_scores_zero :
    ∀ (l : List TestCaseResult), (∀ c ∈ l, c.score = 0) →
      (l.map TestCaseResult.score).sum = 0 := by
  intro l
  induction l with
  | nil => intro _; simp
  | cons c rest ih =>
    intro hall
    simp only [List.map_cons, List.sum_cons, hall c (by simp),
      ih (fun x hx => hall x (by simp [hx]))]
    simp

theorem runner_GetResult_length (b : Bool) (log : String)
    (runs : List SandboxProgram) :
    (CppRunner.GetResult b log runs).length = runs.length := by
  cases b <;> cases runs <;> simp [CppRunner.GetResult]

theorem runner_GetResult_compile_fail (log : String)
    (runs : List SandboxProgram) :
    ∀ c ∈ CppRunner.GetResult false log runs, c.state = .kCE ∧ c.score = 0 := by
  cases runs with
  | nil => simp [CppRunner.GetResult]
  | cons r rs =>
    intro c hc
    simp only [CppRunner.GetResult, Bool.not_false, if_true, List.mem_cons,
      List.mem_map] at hc
    rcases hc with hc | ⟨_, _, hc⟩ <;> subst hc <;> exact ⟨rfl, rfl⟩

/-- C5: a judged submission's overall verdict is `kCE` exactly when every
per-case result is `kCE`; a compile failure marks every case `kCE` with score
0 and puts the compile log into case 0's info, and no other path produces a
`kCE` case. -/
theorem c5_ce_iff_all_ce (sid : String) (log : String) (compile_ok : Bool)
    (runs : List SandboxProgram) (checkers : List (CheckerProgram × Int))
    (hlen : runs.length = checkers.length) (hne : runs ≠ []) :
    ((JudgePipelineResult sid compile_ok log runs checkers).state = .kCE ↔
      ∀ c ∈ (JudgePipelineResult sid compile_ok log runs checkers).testcase_rel,
        c.state = .kCE) ∧
    (compile_ok = false →
      ∀ c ∈ (JudgePipelineResult sid compile_ok log runs checkers).testcase_rel,
        c.state = .kCE ∧ c.score = 0) ∧
    (compile_ok = false →
      ((JudgePipelineResult sid compile_ok log runs checkers).testcase_rel.head?).map
          TestCaseResult.info = some log) ∧
    (compile_ok = true →
      ∀ c ∈ (JudgePipelineResult sid compile_ok log runs checkers).testcase_rel,
        c.state ≠ .kCE) := by
  cases compile_ok with
  | false =>
    cases runs with
    | nil => exact absurd rfl hne
    | cons r rs =>
      have hrr : CppRunner.GetResult false log (r :: rs)
          = ({ state := .kCE, score := 0, info := log } : TestCaseResult) ::
              rs.map (fun _ => ({ state := .kCE, score := 0, info := "" }
                : TestCaseResult)) := by
        simp [CppRunner.GetResult]
      have hall := runner_GetResult_compile_fail log (r :: rs)
      have hnoac : ∀ c ∈ CppRunner.GetResult false log (r :: rs),
          c.state ≠ .kAC := by
        intro c hc
        rw [(hall c hc).1]
        simp
      have hlen2 : (CppRunner.GetResult false log (r :: rs)).length ≤
          (CppGrader.GetResult checkers).length := by
        rw [runner_GetResult_length]
        simp [CppGrader.GetResult, ← hlen]
      have hmerge : Judger.convergeCases (CppRunner.GetResult false log (r :: rs))
          (CppGrader.GetResult checkers) = CppRunner.GetResult false log (r :: rs) :=
        convergeCases_eq_left _ _ hnoac hlen2
      have hrel : (JudgePipelineResult sid false log (r :: rs) checkers).testcase_rel
          = CppRunner.GetResult false log (r :: rs) := by
        simp only [JudgePipelineResult, Judger.Converge]
        exact hmerge
      have hstate : (JudgePipelineResult sid false log (r :: rs) checkers).state
          = .kCE := by
        show (Judger.convergeFold .kAC "" 0
            (Judger.convergeCases (CppRunner.GetResult false log (r :: rs))
              (CppGrader.GetResult checkers))).1 = .kCE
        rw [hmerge, hrr]
        simp [Judger.convergeFold]
      refine ⟨?_, ?_, ?_, ?_⟩
      · rw [hstate, hrel]
        exact ⟨fun _ c hc => (hall c hc).1, fun _ => rfl⟩
      · intro _
        rw [hrel]
        exact hall
      · intro _
        rw [hrel, hrr]
        rfl
      · intro h
        exact absurd h (by simp)
  | true =>
    have hrrce : ∀ c ∈ CppRunner.GetResult true log runs, c.state ≠ .kCE := by
      intro c hc
      simp only [CppRunner.GetResult, Bool.not_true, Bool.false_eq_true,
        if_false, List.mem_map] at hc
      obtain ⟨sp, _, hc⟩ := hc
      rw [← hc]
      exact GetState_state_ne_ce sp
    have hgrce : ∀ c ∈ CppGrader.GetResult checkers, c.state ≠ .kCE := by
      intro c hc
      simp only [CppGrader.GetResult, List.mem_map] at hc
      obtain ⟨p, _, hc⟩ := hc
      rw [← hc]
      exact GetScore_state_ne_ce p.1 p.2
    have hmergece : ∀ c ∈ Judger.convergeCases (CppRunner.GetResult true log runs)
        (CppGrader.GetResult checkers), c.state ≠ .kCE :=
      convergeCases_state_pred (fun s => s ≠ .kCE) _ _ hrrce hgrce
    have hrel : (JudgePipelineResult sid true log runs checkers).testcase_rel
        = Judger.convergeCases (CppRunner.GetResult true log runs)
            (CppGrader.GetResult checkers) := rfl
    have hmne : Judger.convergeCases (CppRunner.GetResult true log runs)
        (CppGrader.GetResult checkers) ≠ [] := by
      have h0 : 0 < runs.length := List.length_pos.mpr hne
      rw [← List.length_pos, Judger.convergeCases, List.length_zipWith,
        runner_GetResult_length]
      simp only [CppGrader.GetResult, List.length_map]
      omega
    have hfoldne : (JudgePipelineResult sid true log runs checkers).state ≠ .kCE := by
      simp only [JudgePipelineResult, Judger.Converge]
      exact convergeFold_fst_ne_ce _ .kAC "" 0 hmergece (by simp)
    refine ⟨?_, ?_, ?_, ?_⟩
    · constructor
      · intro h
        exact absurd h hfoldne
      · intro h
        obtain ⟨c, hc⟩ := List.exists_mem_of_ne_nil _ hmne
        exact absurd (h c (hrel ▸ hc)) (hmergece c hc)
    · intro h
      exact absurd h (by simp)
    · intro h
      exact absurd h (by simp)
    · intro _
      rw [hrel]
      exact hmergece

/-- C5 witness: one run node with a failed compile (`compile_ok = false`). -/
theorem c5_witness :
    ([({} : SandboxProgram)].length = [(({} : CheckerProgram), (10 : Int))].length) ∧
    ([({} : SandboxProgram)] ≠ []) ∧
    ((JudgePipelineResult "sol" false "boom" [{}] [({}, 10)]).state = .kCE ↔
      ∀ c ∈ (JudgePipelineResult "sol" false "boom" [{}] [({}, 10)]).testcase_rel,
        c.state = .kCE) := by
  refine ⟨rfl, by simp, ?_⟩
  exact (c5_ce_iff_all_ce "sol" "boom" false [{}] [({}, 10)] rfl (by simp)).1

/-- C6: a judged submission's total score equals the sum of its per-case
scores, including compile-failure runs where the fold stops at the first
`kCE` case (all scores are then 0). -/
theorem c6_total_score (sid : String) (log : String) (compile_ok : Bool)
    (runs : List SandboxProgram) (checkers : List (CheckerProgram × Int))
    (hlen : runs.length = checkers.length) (hne : runs ≠ []) :
    (JudgePipelineResult sid compile_ok log runs checkers).score
      = ((JudgePipelineResult sid compile_ok log runs checkers).testcase_rel.map
          TestCaseResult.score).sum := by
  cases compile_ok with
  | false =>
    cases runs with
    | nil => exact absurd rfl hne
    | cons r rs =>
      have hall := runner_GetResult_compile_fail log (r :: rs)
      have hnoac : ∀ c ∈ CppRunner.GetResult false log (r :: rs),
          c.state ≠ .kAC := by
        intro c hc
        rw [(hall c hc).1]
        simp
      have hlen2 : (CppRunner.GetResult false log (r :: rs)).length ≤
          (CppGrader.GetResult checkers).length := by
        rw [runner_GetResult_length]
        simp [CppGrader.GetResult, ← hlen]
      have hmerge := convergeCases_eq_left _ (CppGrader.GetResult checkers)
        hnoac hlen2
      have hscoresum : ((CppRunner.GetResult false log (r :: rs)).map
          TestCaseResult.score).sum = 0 :=
        sum_scores_zero _ (fun c hc => (hall c hc).2)
      have hfold0 : (Judger.convergeFold .kAC "" 0
          (CppRunner.GetResult false log (r :: rs))).2.2 = 0 := by
        rw [show CppRunner.GetResult false log (r :: rs)
            = ({ state := .kCE, score := 0, info := log } : TestCaseResult) ::
                rs.map (fun _ => ({ state := .kCE, score := 0, info := "" }
                  : TestCaseResult)) by simp [CppRunner.GetResult]]
        simp [Judger.convergeFold]
      simp only [JudgePipelineResult, Judger.Converge, hmerge]
      rw [hfold0, hscoresum]
  | true =>
    have hrrce : ∀ c ∈ CppRunner.GetResult true log runs, c.state ≠ .kCE := by
      intro c hc
      simp only [CppRunner.GetResult, Bool.not_true, Bool.false_eq_true,
        if_false, List.mem_map] at hc
      obtain ⟨sp, _, hc⟩ := hc
      rw [← hc]
      exact GetState_state_ne_ce sp
    have hgrce : ∀ c ∈ CppGrader.GetResult checkers, c.state ≠ .kCE := by
      intro c hc
      simp only [CppGrader.GetResult, List.mem_map] at hc
      obtain ⟨p, _, hc⟩ := hc
      rw [← hc]
      exact GetScore_state_ne_ce p.1 p.2
    have hmergece := convergeCases_state_pred (fun s => s ≠ .kCE) _ _ hrrce hgrce
    simp only [JudgePipelineResult, Judger.Converge]
    rw [convergeFold_score_of_no_ce _ .kAC "" 0 hmergece]
    simp

/-- C6 witness: a successful compile with one AC run graded full marks. -/
theorem c6_witness :
    ([({ normal_exit := true } : SandboxProgram)].length
        = [(({ normal_exit := true, res_file := some ["-1"] } : CheckerProgram),
            (10 : Int))].length) ∧
    ([({ normal_exit := true } : SandboxProgram)] ≠ []) ∧
    (JudgePipelineResult "sol" true "" [{ normal_exit := true }]
        [({ normal_exit := true, res_file := some ["-1"] }, 10)]).score
      = ((JudgePipelineResult "sol" true "" [{ normal_exit := true }]
          [({ normal_exit := true, res_file := some ["-1"] }, 10)]).testcase_rel.map
            TestCaseResult.score).sum := by
  refine ⟨rfl, by simp, ?_⟩
  exact c6_total_score "sol" "" true [{ normal_exit := true }]
    [({ normal_exit := true, res_file := some ["-1"] }, 10)] rfl (by simp)

/-! ### C8: the sandbox executes the program tree in pruned preorder -/

theorem preorderClaim_eq (p : PNode) :
    preorderClaim p
      = p.label :: (if p.normalExit then preorderClaimList p.child else []) := by
  cases p with
  | mk l ne cs => rfl

theorem preorderClaim_eq_single {p : PNode}
    (h : (p.normalExit && !p.child.isEmpty) = false) :
    preorderClaim p = [p.label] := by
  rw [preorderClaim_eq p]
  cases hne : p.normalExit with
  | false => simp
  | true =>
    rw [hne] at h
    simp only [Bool.true_and, Bool.not_eq_false'] at h
    have hc : p.child = [] := List.isEmpty_iff.mp h
    simp [hc, preorderClaimList]

theorem runLoop_cons_none {t : PNode} {i : Nat} {rest : List (PNode × Nat)}
    (h : t.child.get? i = none) :
    runLoop ((t, i) :: rest) = runLoop rest := by
  rw [runLoop.eq_def]
  dsimp only
  split
  · rfl
  · rename_i p heq
    rw [h] at heq
    exact Option.noConfusion heq

theorem runLoop_cons_some {t : PNode} {i : Nat} {rest : List (PNode × Nat)}
    {p : PNode} (h : t.child.get? i = some p) :
    runLoop ((t, i) :: rest)
      = if i + 1 < t.child.length then
          if p.normalExit && !p.child.isEmpty then
            p.label :: runLoop ((p, 0) :: (t, i + 1) :: rest)
          else p.label :: runLoop ((t, i + 1) :: rest)
        else
          if p.normalExit && !p.child.isEmpty then
            p.label :: runLoop ((p, 0) :: rest)
          else p.label :: runLoop rest := by
  rw [runLoop.eq_def]
  dsimp only
  split
  · rename_i heq
    rw [heq] at h
    exact Option.noConfusion h
  · rename_i q heq
    rw [h] at heq
    cases heq
    rfl

theorem runLoop_eq_stackClaim (s : List (PNode × Nat)) :
    runLoop s = stackClaim s := by
  induction s using runLoop.induct with
  | case1 =>
    rw [runLoop.eq_def]
    rfl
  | case2 t i rest h ih =>
    rw [runLoop_cons_none h, ih]
    have hnil : t.child.drop i = [] :=
      List.drop_eq_nil_of_le (List.get?_eq_none.mp h)
    simp [stackClaim, hnil, preorderClaimList]
  | case3 t i rest p h2 h1 h ih =>
    rw [runLoop_cons_some h2, if_pos h1, if_pos h, ih]
    have hd := drop_of_get?_eq_some h2
    obtain ⟨hne, _⟩ : p.normalExit = true ∧ p.child.isEmpty = false := by
      simpa using h
    simp only [stackClaim, hd, List.drop_zero, preorderClaimList,
      preorderClaim_eq p, hne, if_pos]
    simp [List.append_assoc]
  | case4 t i rest p h2 h1 h ih =>
    have h' : (p.normalExit && !p.child.isEmpty) = false := by
      simpa using h
    rw [runLoop_cons_some h2, if_pos h1, if_neg h, ih]
    have hd := drop_of_get?_eq_some h2
    simp [stackClaim, hd, preorderClaimList, preorderClaim_eq_single h']
  | case5 t i rest p h2 h1 h ih =>
    rw [runLoop_cons_some h2, if_neg h1, if_pos h, ih]
    have hd := drop_of_get?_eq_some h2
    have hnil : t.child.drop (i + 1) = [] := by
      apply List.drop_eq_nil_of_le
      omega
    obtain ⟨hne, _⟩ : p.normalExit = true ∧ p.child.isEmpty = false := by
      simpa using h
    simp only [stackClaim, hd, hnil, List.drop_zero, preorderClaimList,
      preorderClaim_eq p, hne, if_pos]
    simp
  | case6 t i rest p h2 h1 h ih =>
    have h' : (p.normalExit && !p.child.isEmpty) = false := by
      simpa using h
    rw [runLoop_cons_some h2, if_neg h1, if_neg h, ih]
    have hd := drop_of_get?_eq_some h2
    have hnil : t.child.drop (i + 1) = [] := by
      apply List.drop_eq_nil_of_le
      omega
    simp [stackClaim, hd, hnil, preorderClaimList, preorderClaim_eq_single h']

theorem RunProgram_eq_preorderClaim (p : PNode) :
    Sandbox.RunProgram p = preorderClaim p := by
  unfold Sandbox.RunProgram
  by_cases h : (p.normalExit && !p.child.isEmpty) = true
  · rw [if_pos h, runLoop_eq_stackClaim]
    obtain ⟨hne, _⟩ : p.normalExit = true ∧ p.child.isEmpty = false := by
      simpa using h
    simp [stackClaim, preorderClaim_eq p, hne, preorderClaimList]
  · rw [if_neg h, preorderClaim_eq_single (by simpa using h)]

/-- C8: the trace of `Sandbox::Run` over a list of root program nodes is the
claim's order exactly — roots in insertion order, and within each root a
depth-first preorder with sibling order equal to child insertion order, where
a node's children (with their whole subtrees) appear if and only if that node
finished with `normal_exit` true. -/
theorem c8_run_order (ps : List PNode) :
    Sandbox.Run ps = preorderClaimList ps := by
  induction ps with
  | nil => rfl
  | cons p rest ih =>
    simp only [Sandbox.Run, preorderClaimList, RunProgram_eq_preorderClaim, ih]

end FUZOJ
